import Mathlib

/-!
Shallow embedding of the QJniHelpers library (QJniHelpers/QJniHelpers.h):
the JniEnvPtr environment accessor with its preloaded-class table, string
conversion and exception suppression, and the jcGeneric object wrapper with
its typed call/get dispatch and reference ownership.

The repository ships only the header; the behavior of each operation is
modelled from the specification and the header's doc comments.  JNI
references (jobject, jclass, jstring) are modelled as natural-number
identifiers; class names and method signatures as strings; the mutable
process/thread environment as an explicit JniState record threaded through
the operations.
-/

namespace QJniHelpers

/-- Association-list lookup of a class name in the preloaded-class table. -/
def lookupName : String → List (String × Nat) → Option Nat
  | _, [] => none
  | k, (k', v) :: rest => if k = k' then some v else lookupName k rest

/-- Association-list lookup of a string reference's stored code units. -/
def lookupRef : Nat → List (Nat × List Nat) → Option (List Nat)
  | _, [] => none
  | k, (k', v) :: rest => if k = k' then some v else lookupRef k rest

/-- Association-list lookup keyed by a (name, signature) pair, as JNI method
and field resolution is. -/
def lookupSig : String × String → List ((String × String) × Nat) → Option Nat
  | _, [] => none
  | k, (k', v) :: rest => if k = k' then some v else lookupSig k rest

/-- Modelled from the spec: the state visible to a JniEnvPtr (the
implementation file is not in the repository snapshot, only the header).
`resolvable` is the set of class names the main-thread-capable lookup can
resolve; `contextResolvable` the set resolvable by a direct lookup from the
current context; `preloaded` the shared preloaded-class table mapping names
to long-lived (global) references; `globalRefs` the live long-lived
references; `strings` the contents of allocated Java string references;
`nextRef` a fresh-reference counter; `pendingException` whether a Java
exception is pending; `javaVM` the process-wide VM handle. -/
structure JniState where
  resolvable : List String
  contextResolvable : List String
  preloaded : List (String × Nat)
  globalRefs : List Nat
  strings : List (Nat × List Nat)
  nextRef : Nat
  pendingException : Bool
  javaVM : Option Nat
deriving Repr, DecidableEq

/-- Modelled from the spec: JniEnvPtr::PreloadClass resolves a class by
fully-qualified name using the main-thread-capable lookup, stores a
long-lived reference keyed by name in the shared table, and returns whether
the lookup succeeded. -/
def PreloadClass (class_name : String) (s : JniState) : Bool × JniState :=
  if s.resolvable.contains class_name then
    (true,
      { s with
        preloaded := (class_name, s.nextRef) :: s.preloaded
        globalRefs := s.nextRef :: s.globalRefs
        nextRef := s.nextRef + 1 })
  else
    (false, s)

/-- Modelled from the spec: JniEnvPtr::PreloadClasses iterates a
null-terminated list of names (here a Lean list), preloads each one, and
returns the count of successes; a failure on one entry does not stop the
iteration. -/
def PreloadClasses : List String → JniState → Nat × JniState
  | [], s => (0, s)
  | name :: rest, s =>
    let r := PreloadClass name s
    let r2 := PreloadClasses rest r.2
    ((if r.1 then 1 else 0) + r2.1, r2.2)

/-- Modelled from the spec: JniEnvPtr::IsClassPreloaded is a pure lookup in
the preloaded-class table, with no side effects. -/
def IsClassPreloaded (class_name : String) (s : JniState) : Bool :=
  (lookupName class_name s.preloaded).isSome

/-- Modelled from the spec: JniEnvPtr::FindClass returns the preloaded
long-lived reference if present; otherwise it attempts a direct lookup
(which succeeds only from contexts the host runtime permits) and does not
implicitly cache the result. -/
def FindClass (name : String) (s : JniState) : Option Nat × JniState :=
  match lookupName name s.preloaded with
  | some ref => (some ref, s)
  | none =>
    if s.contextResolvable.contains name then
      (some s.nextRef, { s with nextRef := s.nextRef + 1 })
    else
      (none, s)

/-- Modelled from the spec: JniEnvPtr::UnloadClasses releases every table
entry's long-lived reference and clears the table. -/
def UnloadClasses (s : JniState) : JniState :=
  { s with
    preloaded := []
    globalRefs :=
      s.globalRefs.filter (fun r => !((s.preloaded.map Prod.snd).contains r)) }

/-- Modelled from the spec: JniEnvPtr::SuppressException clears any pending
Java exception (optionally describing it first) and returns whether an
exception had been pending.  The `describe` flag only controls logging,
which has no observable effect in the model. -/
def SuppressException (describe : Bool) (s : JniState) : Bool × JniState :=
  (s.pendingException, { s with pendingException := false })

/-- Modelled from the spec: JniEnvPtr::JStringFromQString converts a native
string (modelled as its list of UTF-16 code units) into a new Java string
reference holding the same code units. -/
def JStringFromQString (qstring : List Nat) (s : JniState) : Nat × JniState :=
  (s.nextRef,
    { s with
      strings := (s.nextRef, qstring) :: s.strings
      nextRef := s.nextRef + 1 })

/-- Modelled from the spec: JniEnvPtr::QStringFromJString copies the code
units of a Java string reference into a native string without retaining the
source reference. -/
def QStringFromJString (javastring : Nat) (s : JniState) : List Nat :=
  (lookupRef javastring s.strings).getD []

/-- Modelled from the spec: JniEnvPtr::SetJavaVM stores the process-wide VM
handle; no ownership conflict is detected on repeated calls. -/
def SetJavaVM (vm : Nat) (s : JniState) : JniState :=
  { s with javaVM := some vm }

/-- Modelled from the spec: JniEnvPtr::getJavaVM reads the process-wide VM
handle. -/
def getJavaVM (s : JniState) : Option Nat :=
  s.javaVM

/-- The error conditions jcGeneric raises as C++ exceptions:
jcGeneric::method_not_found_exception and
jcGeneric::field_not_found_exception. -/
inductive JcError where
  | methodNotFound
  | fieldNotFound
deriving Repr, DecidableEq

/-- Modelled from the spec: a Java class as the typed dispatch of jcGeneric
sees it — instance methods, static methods and fields keyed by
(name, JNI type signature) resolving to an id, plus abstract runtime
outcomes for invoking a method or reading a field by id. -/
structure JavaClass where
  methods : List ((String × String) × Nat)
  staticMethods : List ((String × String) × Nat)
  fields : List ((String × String) × Nat)
  invokeResult : Nat → Nat
  fieldValue : Nat → Nat

/-- Modelled from the spec: resolution of an instance method by name and
signature; an unresolvable method raises method_not_found_exception. -/
def GetMethodID (cls : JavaClass) (name sig : String) : Except JcError Nat :=
  match lookupSig (name, sig) cls.methods with
  | some mid => .ok mid
  | none => .error .methodNotFound

/-- Modelled from the spec: resolution of a static method by name and
signature; an unresolvable method raises method_not_found_exception. -/
def GetStaticMethodID (cls : JavaClass) (name sig : String) :
    Except JcError Nat :=
  match lookupSig (name, sig) cls.staticMethods with
  | some mid => .ok mid
  | none => .error .methodNotFound

/-- Modelled from the spec: resolution of a field by name and signature; an
unresolvable field raises field_not_found_exception. -/
def GetFieldID (cls : JavaClass) (name sig : String) : Except JcError Nat :=
  match lookupSig (name, sig) cls.fields with
  | some fid => .ok fid
  | none => .error .fieldNotFound

/-- Modelled from the spec: jcGeneric::CallVoid resolves the method with
signature ()V and invokes it. -/
def CallVoid (cls : JavaClass) (method_name : String) : Except JcError Unit :=
  (GetMethodID cls method_name "()V").map (fun _ => ())

/-- Modelled from the spec: jcGeneric::CallBool resolves the method with
signature ()Z, invokes it and returns the (abstracted) result. -/
def CallBool (cls : JavaClass) (method_name : String) : Except JcError Nat :=
  (GetMethodID cls method_name "()Z").map cls.invokeResult

/-- Modelled from the spec: jcGeneric::CallInt, signature ()I. -/
def CallInt (cls : JavaClass) (method_name : String) : Except JcError Nat :=
  (GetMethodID cls method_name "()I").map cls.invokeResult

/-- Modelled from the spec: jcGeneric::CallLong, signature ()J. -/
def CallLong (cls : JavaClass) (method_name : String) : Except JcError Nat :=
  (GetMethodID cls method_name "()J").map cls.invokeResult

/-- Modelled from the spec: jcGeneric::CallFloat, signature ()F; the
floating-point result is abstracted as its runtime outcome id. -/
def CallFloat (cls : JavaClass) (method_name : String) : Except JcError Nat :=
  (GetMethodID cls method_name "()F").map cls.invokeResult

/-- Modelled from the spec: jcGeneric::CallDouble, signature ()D; the
floating-point result is abstracted as its runtime outcome id. -/
def CallDouble (cls : JavaClass) (method_name : String) : Except JcError Nat :=
  (GetMethodID cls method_name "()D").map cls.invokeResult

/-- Modelled from the spec: jcGeneric::CallString, signature
()Ljava/lang/String;. -/
def CallString (cls : JavaClass) (method_name : String) : Except JcError Nat :=
  (GetMethodID cls method_name "()Ljava/lang/String;").map cls.invokeResult

/-- Modelled from the spec: jcGeneric::CallObject, with a signature built
from the object class name given by the caller. -/
def CallObject (cls : JavaClass) (method_name objname : String) :
    Except JcError Nat :=
  (GetMethodID cls method_name ("()L" ++ objname ++ ";")).map cls.invokeResult

/-- Modelled from the spec: jcGeneric::CallStaticVoid, signature ()V on the
static method table. -/
def CallStaticVoid (cls : JavaClass) (method_name : String) :
    Except JcError Unit :=
  (GetStaticMethodID cls method_name "()V").map (fun _ => ())

/-- Modelled from the spec: jcGeneric::CallStaticString, signature
()Ljava/lang/String; on the static method table. -/
def CallStaticString (cls : JavaClass) (method_name : String) :
    Except JcError Nat :=
  (GetStaticMethodID cls method_name "()Ljava/lang/String;").map
    cls.invokeResult

/-- Modelled from the spec: jcGeneric::CallStaticObject, with a signature
built from the object class name given by the caller, on the static method
table. -/
def CallStaticObject (cls : JavaClass) (method_name objname : String) :
    Except JcError Nat :=
  (GetStaticMethodID cls method_name ("()L" ++ objname ++ ";")).map
    cls.invokeResult

/-- Modelled from the spec: jcGeneric::GetInt resolves the int field
(signature I) and reads it. -/
def GetInt (cls : JavaClass) (field_name : String) : Except JcError Nat :=
  (GetFieldID cls field_name "I").map cls.fieldValue

/-- Modelled from the spec: jcGeneric::GetString resolves the string field
(signature Ljava/lang/String;) and reads it. -/
def GetString (cls : JavaClass) (field_name : String) : Except JcError Nat :=
  (GetFieldID cls field_name "Ljava/lang/String;").map cls.fieldValue

/-- The reference-holding state of a jcGeneric wrapper: the held object
reference instance_ and the held class reference class_, either of which may
be null. -/
structure JcGeneric where
  instance_ : Option Nat
  class_ : Option Nat
deriving Repr, DecidableEq

/-- jcGeneric::jObject returns the held object reference. -/
def jObject (w : JcGeneric) : Option Nat :=
  w.instance_

/-- jcGeneric::jClass returns the held class reference. -/
def jClass (w : JcGeneric) : Option Nat :=
  w.class_

/-- jcGeneric::TakeJobjectOver returns the held object reference and zeroes
the internal one. -/
def TakeJobjectOver (w : JcGeneric) : Option Nat × JcGeneric :=
  (w.instance_, { w with instance_ := none })

/-- Modelled from the spec: the default constructor jcGeneric() creates a
fully uninitialized wrapper holding neither an object nor a class. -/
def jcGenericDefault : JcGeneric :=
  { instance_ := none, class_ := none }

/-- Release one held reference from the set of live references (a
DeleteGlobalRef on a held reference; a null holder releases nothing). -/
def releaseRef (o : Option Nat) (live : List Nat) : List Nat :=
  match o with
  | some r => live.erase r
  | none => live

/-- Modelled from the spec: the jcGeneric destructor releases the held
object and class references (those it still holds; a null slot releases
nothing). -/
def destructJcGeneric (w : JcGeneric) (live : List Nat) : List Nat :=
  releaseRef w.class_ (releaseRef w.instance_ live)

/-- Modelled from the spec: the world of jcGeneric wrappers and taken
references. `wrappers` maps each live wrapper id to the taken reference it
owns, if any; `liveRefs` are the live references; `nextRef` and
`nextWrapper` are freshness counters. -/
structure OwnWorld where
  wrappers : List (Nat × Option Nat)
  liveRefs : List Nat
  nextRef : Nat
  nextWrapper : Nat
deriving Repr, DecidableEq

/-- The empty world, before any wrapper exists. -/
def initialWorld : OwnWorld :=
  { wrappers := [], liveRefs := [], nextRef := 0, nextWrapper := 0 }

/-- Modelled from the spec: jcGeneric(instance, take_ownership = true)
promotes the caller's local reference to a fresh kept (global) reference
owned by the new wrapper and deletes the local reference. -/
def constructTake (localRef : Nat) (w : OwnWorld) : OwnWorld :=
  { wrappers := (w.nextWrapper, some w.nextRef) :: w.wrappers
    liveRefs := w.nextRef :: (w.liveRefs.erase localRef)
    nextRef := w.nextRef + 1
    nextWrapper := w.nextWrapper + 1 }

/-- Modelled from the spec: jcGeneric(instance, take_ownership = false)
wraps a borrowed reference; the new wrapper owns nothing. -/
def constructBorrow (w : OwnWorld) : OwnWorld :=
  { w with
    wrappers := (w.nextWrapper, none) :: w.wrappers
    nextWrapper := w.nextWrapper + 1 }

/-- Modelled from the spec: jcGeneric::TakeJobjectOver at the world level —
the wrapper gives the reference it owned to the caller and afterward owns
nothing; the reference stays live. -/
def takeOverStep (wid : Nat) (w : OwnWorld) : OwnWorld :=
  { w with
    wrappers := w.wrappers.map (fun p => if p.1 = wid then (p.1, none) else p) }

/-- The reference a given wrapper currently owns, if any. -/
def findOwned (wid : Nat) : List (Nat × Option Nat) → Option Nat
  | [] => none
  | (wid', o) :: rest => if wid = wid' then o else findOwned wid rest

/-- Modelled from the spec: destruction of a wrapper — the wrapper is
removed and the reference it still owned, if any, is released. -/
def destructStep (wid : Nat) (w : OwnWorld) : OwnWorld :=
  { w with
    wrappers := w.wrappers.filter (fun p => p.1 ≠ wid)
    liveRefs :=
      match findOwned wid w.wrappers with
      | some r => w.liveRefs.erase r
      | none => w.liveRefs }

/-- The operations available on wrappers.  Q_DISABLE_COPY(jcGeneric) makes
copy construction and assignment unavailable, so no step duplicates a
wrapper or its ownership. -/
inductive OwnStep : OwnWorld → OwnWorld → Prop
  | construct_take (localRef : Nat) (w : OwnWorld) :
      OwnStep w (constructTake localRef w)
  | construct_borrow (w : OwnWorld) : OwnStep w (constructBorrow w)
  | take_over (wid : Nat) (w : OwnWorld) : OwnStep w (takeOverStep wid w)
  | destruct (wid : Nat) (w : OwnWorld) : OwnStep w (destructStep wid w)

/-- The worlds reachable from the empty world by wrapper operations. -/
inductive Reaches : OwnWorld → Prop
  | init : Reaches initialWorld
  | step {w w' : OwnWorld} : Reaches w → OwnStep w w' → Reaches w'

/-- Wrapper wid owns taken reference r. -/
def ownsRef (w : OwnWorld) (wid r : Nat) : Prop :=
  (wid, some r) ∈ w.wrappers

/-- The structural invariant of the wrapper world: wrapper ids are bounded
by the freshness counter and pairwise distinct, owned references are bounded
by the freshness counter and pairwise distinct, and the live-reference list
is duplicate-free and bounded. -/
def OwnInv (w : OwnWorld) : Prop :=
  (∀ p ∈ w.wrappers, p.1 < w.nextWrapper) ∧
  w.wrappers.Pairwise (fun p q => p.1 ≠ q.1) ∧
  (∀ p ∈ w.wrappers, ∀ r, p.2 = some r → r < w.nextRef) ∧
  w.wrappers.Pairwise
    (fun p q => ∀ r r', p.2 = some r → q.2 = some r' → r ≠ r') ∧
  w.liveRefs.Nodup ∧
  (∀ x ∈ w.liveRefs, x < w.nextRef)

/-- A concrete environment state used to exercise the theorems: classes
"a" and "b" are resolvable by the preloading lookup, "ctx" directly from
the current context, "c" is already preloaded, and an exception is
pending. -/
def sampleState : JniState :=
  { resolvable := ["a", "b"]
    contextResolvable := ["ctx"]
    preloaded := [("c", 0)]
    globalRefs := [0]
    strings := []
    nextRef := 1
    pendingException := true
    javaVM := none }

/-- A concrete Java class used to exercise the dispatch theorems. -/
def cls0 : JavaClass :=
  { methods := [(("foo", "()V"), 1)]
    staticMethods := [(("bar", "()V"), 2)]
    fields := [(("x", "I"), 3)]
    invokeResult := fun _ => 0
    fieldValue := fun _ => 0 }

/-- A concrete wrapper holding object reference 1 and class reference 2. -/
def w0 : JcGeneric :=
  { instance_ := some 1, class_ := some 2 }

/-- Claim C1.  After a successful PreloadClass(name), FindClass(name)
returns a valid (non-null) reference; for a name never preloaded and not
resolvable from the current context, FindClass returns an empty result and
changes nothing (in particular it caches nothing). -/
theorem findClass_after_preload (name : String) (s : JniState) :
    ((PreloadClass name s).1 = true →
      ((FindClass name (PreloadClass name s).2).1).isSome = true) ∧
    (lookupName name s.preloaded = none →
      s.contextResolvable.contains name = false →
      (FindClass name s).1 = none ∧ (FindClass name s).2 = s) := by
  constructor
  · intro h
    by_cases hc : name ∈ s.resolvable
    · simp [PreloadClass, hc, FindClass, lookupName]
    · simp [PreloadClass, hc] at h
  · intro h1 h2
    unfold FindClass
    rw [h1, h2]
    simp

theorem findClass_after_preload_witness :
    ((FindClass "a" (PreloadClass "a" sampleState).2).1).isSome = true ∧
    ((FindClass "zz" sampleState).1 = none ∧
      (FindClass "zz" sampleState).2 = sampleState) :=
  ⟨(findClass_after_preload "a" sampleState).1 (by decide),
   (findClass_after_preload "zz" sampleState).2 (by decide) (by decide)⟩

/-- Claim C4.  SuppressException returns true exactly when an exception was
pending at call time, and in every case no exception is pending after it
returns. -/
theorem suppressException_spec (describe : Bool) (s : JniState) :
    ((SuppressException describe s).1 = true ↔ s.pendingException = true) ∧
    (SuppressException describe s).2.pendingException = false :=
  ⟨Iff.rfl, rfl⟩

/-- Claim C5.  The round trip QStringFromJString(JStringFromQString(s))
returns the original string, whatever its code units (ASCII or not). -/
theorem jstring_roundtrip (qstring : List Nat) (s : JniState) :
    QStringFromJString (JStringFromQString qstring s).1
      (JStringFromQString qstring s).2 = qstring := by
  simp [JStringFromQString, QStringFromJString, lookupRef]

/-- Claim C8.  SetJavaVM stores the process-wide handle; a second call
overwrites the first without detecting any conflict (the resulting state
does not depend on the previously stored handle), and getJavaVM observes
the most recently stored handle. -/
theorem setJavaVM_last_write_wins (v1 v2 : Nat) (s : JniState) :
    getJavaVM (SetJavaVM v2 (SetJavaVM v1 s)) = some v2 ∧
    SetJavaVM v2 (SetJavaVM v1 s) = SetJavaVM v2 s :=
  ⟨rfl, rfl⟩

/-- Claim C10.  A default-constructed jcGeneric holds neither an object nor
a class: jObject() and jClass() return null, and its destruction releases
nothing. -/
theorem default_jcGeneric_empty (live : List Nat) :
    jObject jcGenericDefault = none ∧
    jClass jcGenericDefault = none ∧
    destructJcGeneric jcGenericDefault live = live :=
  ⟨rfl, rfl, rfl⟩

lemma preloadClass_fst (n : String) (s : JniState) :
    (PreloadClass n s).1 = s.resolvable.contains n := by
  by_cases h : n ∈ s.resolvable <;> simp [PreloadClass, h]

lemma preloadClass_resolvable (n : String) (s : JniState) :
    ((PreloadClass n s).2).resolvable = s.resolvable := by
  by_cases h : n ∈ s.resolvable <;> simp [PreloadClass, h]

lemma lookupName_isSome_cons (n k : String) (v : Nat)
    (l : List (String × Nat)) (h : (lookupName n l).isSome = true) :
    (lookupName n ((k, v) :: l)).isSome = true := by
  by_cases hk : n = k <;> simp [lookupName, hk, h]

lemma isPreloaded_preloadClass_mono (m n : String) (s : JniState)
    (h : IsClassPreloaded n s = true) :
    IsClassPreloaded n (PreloadClass m s).2 = true := by
  by_cases hc : s.resolvable.contains m = true
  · simp only [IsClassPreloaded, PreloadClass, if_pos hc] at h ⊢
    exact lookupName_isSome_cons n m s.nextRef s.preloaded h
  · simp only [IsClassPreloaded, PreloadClass, if_neg hc] at h ⊢
    exact h

lemma isPreloaded_preloadClasses_mono (l : List String) (n : String) :
    ∀ s : JniState, IsClassPreloaded n s = true →
      IsClassPreloaded n (PreloadClasses l s).2 = true := by
  induction l with
  | nil => intro s h; simpa [PreloadClasses] using h
  | cons hd t ih =>
    intro s h
    simp only [PreloadClasses]
    exact ih (PreloadClass hd s).2 (isPreloaded_preloadClass_mono hd n s h)

lemma preloadClass_success_isPreloaded (n : String) (s : JniState)
    (h : n ∈ s.resolvable) :
    IsClassPreloaded n (PreloadClass n s).2 = true := by
  simp [PreloadClass, h, IsClassPreloaded, lookupName]

lemma preloadClasses_fst (l : List String) :
    ∀ s : JniState,
      (PreloadClasses l s).1 = l.countP (fun n => s.resolvable.contains n) := by
  induction l with
  | nil => intro s; simp [PreloadClasses]
  | cons hd t ih =>
    intro s
    simp only [PreloadClasses]
    rw [ih (PreloadClass hd s).2, List.countP_cons, preloadClass_fst,
      preloadClass_resolvable]
    by_cases hc : hd ∈ s.resolvable <;> simp [hc, Nat.add_comm]

lemma preloadClasses_preloads (l : List String) (name : String) :
    ∀ s : JniState, name ∈ l → name ∈ s.resolvable →
      IsClassPreloaded name (PreloadClasses l s).2 = true := by
  induction l with
  | nil => intro s h; cases h
  | cons hd t ih =>
    intro s h1 h2
    simp only [PreloadClasses]
    rcases List.mem_cons.mp h1 with rfl | hmem
    · exact isPreloaded_preloadClasses_mono t name (PreloadClass name s).2
        (preloadClass_success_isPreloaded name s h2)
    · refine ih (PreloadClass hd s).2 hmem ?_
      rw [preloadClass_resolvable]
      exact h2

/-- Claim C2.  PreloadClasses over a list of names returns exactly the
number of resolvable names in the list, and a failure on one entry does not
stop iteration: every resolvable name of the list ends up preloaded. -/
theorem preloadClasses_count (list : List String) (s : JniState) :
    (PreloadClasses list s).1 =
      list.countP (fun n => s.resolvable.contains n) ∧
    (∀ name, name ∈ list → name ∈ s.resolvable →
      IsClassPreloaded name (PreloadClasses list s).2 = true) := by
  refine ⟨preloadClasses_fst list s, ?_⟩
  intro name h1 h2
  exact preloadClasses_preloads list name s h1 h2

theorem preloadClasses_count_witness :
    (PreloadClasses ["a", "zz", "b"] sampleState).1 =
      (["a", "zz", "b"].countP (fun n => sampleState.resolvable.contains n)) ∧
    IsClassPreloaded "b" (PreloadClasses ["a", "zz", "b"] sampleState).2 =
      true :=
  ⟨(preloadClasses_count ["a", "zz", "b"] sampleState).1,
   (preloadClasses_count ["a", "zz", "b"] sampleState).2 "b" (by decide)
     (by decide)⟩

lemma contains_false_not_mem (l : List Nat) (r : Nat)
    (h : l.contains r = false) : r ∉ l := by
  simp at h
  exact h

/-- Claim C3.  UnloadClasses clears the preloaded-class table — afterward
IsClassPreloaded is false for every name — and releases every table entry's
long-lived reference from the live set. -/
theorem unloadClasses_clears (s : JniState) (name : String) (r : Nat) :
    IsClassPreloaded name (UnloadClasses s) = false ∧
    (r ∈ s.preloaded.map Prod.snd → r ∉ (UnloadClasses s).globalRefs) := by
  constructor
  · simp [UnloadClasses, IsClassPreloaded, lookupName]
  · intro h hmem
    simp only [UnloadClasses, List.mem_filter] at hmem
    rcases hmem with ⟨-, hb⟩
    have hb' : ((s.preloaded.map Prod.snd).contains r) = false := by
      revert hb
      cases (s.preloaded.map Prod.snd).contains r <;> simp
    exact contains_false_not_mem (s.preloaded.map Prod.snd) r hb' h

theorem unloadClasses_clears_witness :
    IsClassPreloaded "c" (UnloadClasses sampleState) = false ∧
    (0 : Nat) ∉ (UnloadClasses sampleState).globalRefs :=
  ⟨(unloadClasses_clears sampleState "c" 0).1,
   (unloadClasses_clears sampleState "c" 0).2 (by decide)⟩

/-- Claim C7.  TakeJobjectOver returns the held reference and nulls the
internal one: afterward jObject() is null, and since the wrapper no longer
holds the reference, destroying the wrapper leaves the caller-obtained
reference live. -/
theorem takeJobjectOver_spec (w : JcGeneric) (r : Nat) (live : List Nat)
    (h : w.instance_ = some r) (hc : w.class_ ≠ some r) (hl : r ∈ live) :
    (TakeJobjectOver w).1 = some r ∧
    jObject (TakeJobjectOver w).2 = none ∧
    r ∈ destructJcGeneric (TakeJobjectOver w).2 live := by
  refine ⟨by rw [TakeJobjectOver, h], rfl, ?_⟩
  simp only [TakeJobjectOver, destructJcGeneric, releaseRef]
  cases hcw : w.class_ with
  | none => exact hl
  | some c =>
    have hne : r ≠ c := by
      intro he
      exact hc (by rw [hcw, he])
    exact (List.mem_erase_of_ne hne).mpr hl

theorem takeJobjectOver_spec_witness :
    (TakeJobjectOver w0).1 = some 1 ∧
    jObject (TakeJobjectOver w0).2 = none ∧
    (1 : Nat) ∈ destructJcGeneric (TakeJobjectOver w0).2 [1, 2] :=
  takeJobjectOver_spec w0 1 [1, 2] rfl (by decide) (by decide)

lemma lookupSig_eq_none (l : List ((String × String) × Nat))
    (name sig : String) (h : ∀ e ∈ l, e.1.1 ≠ name) :
    lookupSig (name, sig) l = none := by
  induction l with
  | nil => rfl
  | cons e t ih =>
    obtain ⟨⟨n', sg⟩, v⟩ := e
    have hne : ((name, sig) : String × String) ≠ (n', sg) := by
      intro he
      injection he with he1 he2
      exact h ((n', sg), v) (List.mem_cons_self _ _) he1.symm
    simp only [lookupSig, if_neg hne]
    exact ih (fun e' he' => h e' (List.mem_cons_of_mem _ he'))

/-- Claim C6.  For a method name absent on the wrapped class, every typed
call method raises method_not_found_exception rather than returning a
default value, and the field accessors on an absent field name raise
field_not_found_exception. -/
theorem call_absent_name_raises (cls : JavaClass) (name objname : String)
    (hm : ∀ e ∈ cls.methods, e.1.1 ≠ name)
    (hs : ∀ e ∈ cls.staticMethods, e.1.1 ≠ name)
    (hf : ∀ e ∈ cls.fields, e.1.1 ≠ name) :
    CallVoid cls name = .error .methodNotFound ∧
    CallBool cls name = .error .methodNotFound ∧
    CallInt cls name = .error .methodNotFound ∧
    CallLong cls name = .error .methodNotFound ∧
    CallFloat cls name = .error .methodNotFound ∧
    CallDouble cls name = .error .methodNotFound ∧
    CallString cls name = .error .methodNotFound ∧
    CallObject cls name objname = .error .methodNotFound ∧
    CallStaticVoid cls name = .error .methodNotFound ∧
    CallStaticString cls name = .error .methodNotFound ∧
    CallStaticObject cls name objname = .error .methodNotFound ∧
    GetInt cls name = .error .fieldNotFound ∧
    GetString cls name = .error .fieldNotFound := by
  have hmid : ∀ sig, GetMethodID cls name sig = .error .methodNotFound := by
    intro sig
    unfold GetMethodID
    rw [lookupSig_eq_none cls.methods name sig hm]
  have hsid : ∀ sig, GetStaticMethodID cls name sig =
      .error .methodNotFound := by
    intro sig
    unfold GetStaticMethodID
    rw [lookupSig_eq_none cls.staticMethods name sig hs]
  have hfid : ∀ sig, GetFieldID cls name sig = .error .fieldNotFound := by
    intro sig
    unfold GetFieldID
    rw [lookupSig_eq_none cls.fields name sig hf]
  refine ⟨?_, ?_, ?_, ?_, ?_, ?_, ?_, ?_, ?_, ?_, ?_, ?_, ?_⟩ <;>
    simp [CallVoid, CallBool, CallInt, CallLong, CallFloat, CallDouble,
      CallString, CallObject, CallStaticVoid, CallStaticString,
      CallStaticObject, GetInt, GetString, hmid, hsid, hfid, Except.map]

theorem call_absent_name_raises_witness :
    CallVoid cls0 "absent" = .error .methodNotFound ∧
    CallBool cls0 "absent" = .error .methodNotFound ∧
    CallInt cls0 "absent" = .error .methodNotFound ∧
    CallLong cls0 "absent" = .error .methodNotFound ∧
    CallFloat cls0 "absent" = .error .methodNotFound ∧
    CallDouble cls0 "absent" = .error .methodNotFound ∧
    CallString cls0 "absent" = .error .methodNotFound ∧
    CallObject cls0 "absent" "java/lang/Object" = .error .methodNotFound ∧
    CallStaticVoid cls0 "absent" = .error .methodNotFound ∧
    CallStaticString cls0 "absent" = .error .methodNotFound ∧
    CallStaticObject cls0 "absent" "java/lang/Object" =
      .error .methodNotFound ∧
    GetInt cls0 "absent" = .error .fieldNotFound ∧
    GetString cls0 "absent" = .error .fieldNotFound :=
  call_absent_name_raises cls0 "absent" "java/lang/Object"
    (by decide) (by decide) (by decide)

lemma ownInv_initial : OwnInv initialWorld := by
  simp [OwnInv, initialWorld]

lemma ownInv_constructTake (localRef : Nat) (w : OwnWorld) (h : OwnInv w) :
    OwnInv (constructTake localRef w) := by
  obtain ⟨h1, h2, h3, h4, h5, h6⟩ := h
  refine ⟨?_, ?_, ?_, ?_, ?_, ?_⟩
  · intro p hp
    simp only [constructTake] at hp ⊢
    rcases List.mem_cons.mp hp with rfl | hm
    · exact Nat.lt_succ_self _
    · exact Nat.lt_succ_of_lt (h1 p hm)
  · simp only [constructTake]
    exact List.pairwise_cons.mpr ⟨fun q hq => ne_of_gt (h1 q hq), h2⟩
  · intro p hp r hr
    simp only [constructTake] at hp ⊢
    rcases List.mem_cons.mp hp with rfl | hm
    · injection hr with hr'
      rw [← hr']
      exact Nat.lt_succ_self _
    · exact Nat.lt_succ_of_lt (h3 p hm r hr)
  · simp only [constructTake]
    refine List.pairwise_cons.mpr ⟨?_, h4⟩
    intro q hq r r' hr hq'
    injection hr with hr'
    rw [← hr']
    exact ne_of_gt (h3 q hq r' hq')
  · simp only [constructTake]
    refine List.nodup_cons.mpr ⟨?_, h5.erase localRef⟩
    intro hmem
    exact Nat.lt_irrefl _ (h6 _ (List.mem_of_mem_erase hmem))
  · intro x hx
    simp only [constructTake] at hx ⊢
    rcases List.mem_cons.mp hx with rfl | hm
    · exact Nat.lt_succ_self _
    · exact Nat.lt_succ_of_lt (h6 x (List.mem_of_mem_erase hm))

lemma ownInv_constructBorrow (w : OwnWorld) (h : OwnInv w) :
    OwnInv (constructBorrow w) := by
  obtain ⟨h1, h2, h3, h4, h5, h6⟩ := h
  refine ⟨?_, ?_, ?_, ?_, ?_, ?_⟩
  · intro p hp
    simp only [constructBorrow] at hp ⊢
    rcases List.mem_cons.mp hp with rfl | hm
    · exact Nat.lt_succ_self _
    · exact Nat.lt_succ_of_lt (h1 p hm)
  · simp only [constructBorrow]
    exact List.pairwise_cons.mpr ⟨fun q hq => ne_of_gt (h1 q hq), h2⟩
  · intro p hp r hr
    simp only [constructBorrow] at hp ⊢
    rcases List.mem_cons.mp hp with rfl | hm
    · cases hr
    · exact h3 p hm r hr
  · simp only [constructBorrow]
    refine List.pairwise_cons.mpr ⟨?_, h4⟩
    intro q hq r r' hr hq'
    cases hr
  · exact h5
  · exact h6

lemma ownInv_takeOverStep (wid : Nat) (w : OwnWorld) (h : OwnInv w) :
    OwnInv (takeOverStep wid w) := by
  obtain ⟨h1, h2, h3, h4, h5, h6⟩ := h
  have hfst : ∀ q : Nat × Option Nat,
      ((fun p : Nat × Option Nat =>
        if p.1 = wid then (p.1, none) else p) q).1 = q.1 := by
    intro q
    by_cases hq : q.1 = wid <;> simp [hq]
  have hsnd : ∀ (q : Nat × Option Nat) (r : Nat),
      ((fun p : Nat × Option Nat =>
        if p.1 = wid then (p.1, none) else p) q).2 = some r →
      q.2 = some r := by
    intro q r hr
    by_cases hq : q.1 = wid
    · simp [hq] at hr
    · simpa [hq] using hr
  refine ⟨?_, ?_, ?_, ?_, h5, h6⟩
  · intro p hp
    simp only [takeOverStep] at hp ⊢
    obtain ⟨q, hq, rfl⟩ := List.mem_map.mp hp
    rw [hfst q]
    exact h1 q hq
  · simp only [takeOverStep]
    refine List.pairwise_map.mpr (h2.imp ?_)
    intro a b hab
    rw [hfst a, hfst b]
    exact hab
  · intro p hp r hr
    simp only [takeOverStep] at hp
    obtain ⟨q, hq, rfl⟩ := List.mem_map.mp hp
    exact h3 q hq r (hsnd q r hr)
  · simp only [takeOverStep]
    refine List.pairwise_map.mpr (h4.imp ?_)
    intro a b hab r r' ha hb
    exact hab r r' (hsnd a r ha) (hsnd b r' hb)

lemma ownInv_destructStep (wid : Nat) (w : OwnWorld) (h : OwnInv w) :
    OwnInv (destructStep wid w) := by
  obtain ⟨h1, h2, h3, h4, h5, h6⟩ := h
  refine ⟨?_, ?_, ?_, ?_, ?_, ?_⟩
  · intro p hp
    simp only [destructStep] at hp ⊢
    exact h1 p (List.mem_of_mem_filter hp)
  · simp only [destructStep]
    exact h2.filter _
  · intro p hp r hr
    simp only [destructStep] at hp ⊢
    exact h3 p (List.mem_of_mem_filter hp) r hr
  · simp only [destructStep]
    exact h4.filter _
  · simp only [destructStep]
    cases hf : findOwned wid w.wrappers with
    | none => exact h5
    | some r => exact h5.erase r
  · intro x hx
    simp only [destructStep] at hx ⊢
    revert hx
    cases hf : findOwned wid w.wrappers with
    | none => exact fun hx => h6 x hx
    | some r => exact fun hx => h6 x (List.mem_of_mem_erase hx)

lemma ownInv_step {w w' : OwnWorld} (h : OwnInv w) (hs : OwnStep w w') :
    OwnInv w' := by
  cases hs with
  | construct_take localRef w => exact ownInv_constructTake localRef w h
  | construct_borrow w => exact ownInv_constructBorrow w h
  | take_over wid w => exact ownInv_takeOverStep wid w h
  | destruct wid w => exact ownInv_destructStep wid w h

lemma reaches_ownInv (w : OwnWorld) (h : Reaches w) : OwnInv w := by
  induction h with
  | init => exact ownInv_initial
  | step hr hs ih => exact ownInv_step ih hs

lemma ownInv_unique (w : OwnWorld) (h : OwnInv w) (r wid1 wid2 : Nat)
    (h1 : ownsRef w wid1 r) (h2 : ownsRef w wid2 r) : wid1 = wid2 := by
  by_contra hne
  obtain ⟨-, -, -, hrefs, -, -⟩ := h
  have hsym : Symmetric (fun p q : Nat × Option Nat =>
      ∀ r r', p.2 = some r → q.2 = some r' → r ≠ r') := by
    intro a b hab r r' hbr har
    exact (hab r' r har hbr).symm
  have hne' : ((wid1, some r) : Nat × Option Nat) ≠ (wid2, some r) := by
    intro he
    injection he with ha _
    exact hne ha
  have hall := hrefs.forall hsym h1 h2 hne'
  exact hall r r rfl rfl rfl

/-- Claim C9.  In every world reachable by wrapper operations (copying a
wrapper is impossible, Q_DISABLE_COPY), a taken reference is owned by at
most one wrapper instance, and destroying the wrapper that owns a reference
releases it from the live set. -/
theorem taken_ref_unique_owner (w : OwnWorld) (h : Reaches w) :
    (∀ r wid1 wid2, ownsRef w wid1 r → ownsRef w wid2 r → wid1 = wid2) ∧
    (∀ wid r, findOwned wid w.wrappers = some r →
      r ∉ (destructStep wid w).liveRefs) := by
  have hinv := reaches_ownInv w h
  refine ⟨fun r wid1 wid2 h1 h2 => ownInv_unique w hinv r wid1 wid2 h1 h2, ?_⟩
  intro wid r hf
  have hlive : (destructStep wid w).liveRefs = w.liveRefs.erase r := by
    simp only [destructStep, hf]
  rw [hlive]
  exact hinv.2.2.2.2.1.not_mem_erase

theorem taken_ref_unique_owner_witness :
    (0 : Nat) = 0 ∧
    (0 : Nat) ∉ (destructStep 0 (constructTake 5 initialWorld)).liveRefs := by
  have hreach : Reaches (constructTake 5 initialWorld) :=
    Reaches.step Reaches.init (OwnStep.construct_take 5 initialWorld)
  have h := taken_ref_unique_owner (constructTake 5 initialWorld) hreach
  have hown : ownsRef (constructTake 5 initialWorld) 0 0 := by
    simp [ownsRef, constructTake, initialWorld]
  exact ⟨h.1 0 0 0 hown hown, h.2 0 0 rfl⟩

end QJniHelpers
